import Mathlib

/-!
# nonstd::optional: monadic operations over std::optional

A shallow embedding of `src/nonstd_optional/nonstd_optional.cpp`.

* `nonstd::optional<T>` publicly derives from `std::optional<T>` and adds no data
  member, so it is a structure whose only field is the base subobject.
* The callables handed to `transform`, `and_then` and `or_else` are arbitrary C++
  callables: they may read and write state of the caller and may throw.  A callable is
  therefore a function from the caller's state to a result-or-exception plus the new
  state (`Callable`).
* The member functions run in `Eff`: explicit state passing over a `World` that holds
  the caller's state and a counter bumped at every call site of the callable, with an
  outcome that is a returned value, an exception in flight, or the undefined behaviour
  of `operator*` on an empty optional.
* Copying and moving element values is taken to be total and exception free.
-/

namespace nonstd

/-! ## Data model -/

/-- The base class `std::optional<T>` (line 34, `using Base = std::optional<T>`). -/
abbrev Base (T : Type) := Option T

/-- The type `std::nullopt_t`, whose only value is `std::nullopt`. -/
inductive nullopt_t where
  | nullopt
deriving DecidableEq, Repr

/-- The class `template <class T> class optional : public std::optional<T>` (line 28). -/
structure optional (T : Type) where
  base : Base T
deriving DecidableEq, Repr

namespace optional

variable {T U R σ E : Type}

/-- Constructors `optional()` and `optional(std::nullopt_t)`, inherited at line 32: the
empty optional.  Also what `return std::nullopt;` converts to. -/
def nullopt : optional T := ⟨none⟩

/-- Constructor `template <class U = T> optional(U&& value)`, inherited at line 32: an
optional that contains the value. -/
def of_value (v : T) : optional T := ⟨some v⟩

/-- Constructors `optional(const Base&)` and `optional(Base&&)`, lines 40 to 46. -/
def of_base (b : Base T) : optional T := ⟨b⟩

/-- Constructors `optional(const Self&)` and `optional(Self&&)`, lines 37 and 38. -/
def of_self (o : optional T) : optional T := ⟨o.base⟩

/-- Member `has_value()` of the base class. -/
def has_value (self : optional T) : Bool := self.base.isSome

/-! ## Effects of a call -/

/-- How the evaluation of an expression ends. -/
inductive Outcome (E α : Type) where
  /-- normal completion with a value -/
  | returned (a : α)
  /-- an exception thrown by a callable is in flight -/
  | raised (e : E)
  /-- `operator*` was applied to an optional that holds no value -/
  | undefined
deriving DecidableEq, Repr

/-- The state a call runs in: the caller's own state `env`, which the callables may read
and write, and the number of times a callable has been entered so far. -/
structure World (σ : Type) where
  env : σ
  invocations : Nat
deriving DecidableEq, Repr

/-- A C++ callable whose arguments are already bound: run in the caller's state, it
returns a value of `R` or throws an `E`, and leaves a new state. -/
abbrev Callable (σ E R : Type) := σ → Except E R × σ

/-- A callable without side effects that returns `r`. -/
def Callable.returning (r : R) : Callable σ E R := fun s => (Except.ok r, s)

/-- A callable that throws `e`. -/
def Callable.throwing (e : E) : Callable σ E R := fun s => (Except.error e, s)

/-- Computations of the member functions. -/
def Eff (σ E α : Type) : Type := World σ → Outcome E α × World σ

/-- Sequencing: an exception or undefined behaviour ends the evaluation. -/
def Eff.bind {α β : Type} (m : Eff σ E α) (k : α → Eff σ E β) : Eff σ E β := fun w =>
  match m w with
  | (Outcome.returned a, w1) => k a w1
  | (Outcome.raised e, w1) => (Outcome.raised e, w1)
  | (Outcome.undefined, w1) => (Outcome.undefined, w1)

instance : Monad (Eff σ E) where
  pure a := fun w => (Outcome.returned a, w)
  bind := Eff.bind

/-- The expression `**this`: `operator*` of the base class on the receiver. -/
def deref (self : optional T) : Eff σ E T := fun w =>
  match self.base with
  | some v => (Outcome.returned v, w)
  | none => (Outcome.undefined, w)

/-- The call `std::forward<Invocable>(func)(args...)`. -/
def invoke (f : Callable σ E R) : Eff σ E R := fun w =>
  match f w.env with
  | (Except.ok r, s) => (Outcome.returned r, ⟨s, w.invocations + 1⟩)
  | (Except.error e, s) => (Outcome.raised e, ⟨s, w.invocations + 1⟩)

/-- The result of a call whose value is then passed to a constructor. -/
def invoke_then {β : Type} (f : Callable σ E R) (g : R → β) (w : World σ) :
    Outcome E β × World σ :=
  (match (f w.env).1 with
    | Except.ok r => Outcome.returned (g r)
    | Except.error e => Outcome.raised e,
   ⟨(f w.env).2, w.invocations + 1⟩)

/-! ## The callables accepted by the operations -/

/-- Concept `details::and_then_invocable` (lines 18 to 25): the result type `R` of the
callable has a member `value_type` (here `U`) and `optional<U>` is derived from `R`, so
`R` is `nonstd::optional<U>` or its base `std::optional<U>`.  `construct` is
`ResultType{ r }` of line 69 for such an `R`. -/
class and_then_invocable (R : Type) (U : outParam Type) where
  construct : R → optional U

/-- The callable returns `nonstd::optional<U>`: `ResultType{ r }` is the copy or move
constructor. -/
instance : and_then_invocable (optional U) U := ⟨of_self⟩

/-- The callable returns `std::optional<U>`: `ResultType{ r }` is `optional(Base&&)`. -/
instance : and_then_invocable (Option U) U := ⟨of_base⟩

/-- The callable of `or_else` by the shape of its result type, which fixes the branch of
the `if constexpr` at line 83 and the constructor that `ResultType{ func() }` selects at
line 91. -/
inductive Fallback (σ E T : Type) where
  /-- the result type is `void` -/
  | returns_void (f : Callable σ E Unit)
  /-- the result is a `T`, or converts to `T` through the value constructor -/
  | returns_value (f : Callable σ E T)
  /-- the result is a `nonstd::optional<T>` -/
  | returns_optional (f : Callable σ E (optional T))
  /-- the result is a `std::optional<T>` -/
  | returns_base (f : Callable σ E (Base T))
  /-- the result is `std::nullopt_t` -/
  | returns_nullopt (f : Callable σ E nullopt_t)

/-- Whether `std::same_as<std::invoke_result_t<Invocable>, void>` holds (line 83). -/
def Fallback.is_void : Fallback σ E T → Bool
  | Fallback.returns_void _ => true
  | _ => false

/-- The callable of a fallback with its result dropped: what calling it does to the
caller's state and whether it throws. -/
def Fallback.call : Fallback σ E T → Callable σ E Unit
  | Fallback.returns_void f => fun s => ((f s).1.map fun _ => (), (f s).2)
  | Fallback.returns_value f => fun s => ((f s).1.map fun _ => (), (f s).2)
  | Fallback.returns_optional f => fun s => ((f s).1.map fun _ => (), (f s).2)
  | Fallback.returns_base f => fun s => ((f s).1.map fun _ => (), (f s).2)
  | Fallback.returns_nullopt f => fun s => ((f s).1.map fun _ => (), (f s).2)

/-! ## The operations -/

/-- Member `transform` (lines 51 to 60). -/
def transform (self : optional T) (func : T → Callable σ E U) : Eff σ E (optional U) :=
  if self.has_value then do
    let v ← deref self
    let r ← invoke (func v)
    pure (of_value r)
  else
    pure nullopt

/-- Member `and_then` (lines 62 to 73). -/
def and_then [and_then_invocable R U] (self : optional T) (func : T → Callable σ E R) :
    Eff σ E (optional U) :=
  if self.has_value then do
    let v ← deref self
    let r ← invoke (func v)
    pure (and_then_invocable.construct r)
  else
    pure (nullopt : optional U)

/-- Member `or_else` (lines 75 to 93). -/
def or_else (self : optional T) (func : Fallback σ E T) : Eff σ E (optional T) :=
  if self.has_value then do
    let v ← deref self
    pure (of_value v)
  else
    match func with
    | Fallback.returns_void f => do
        let _ ← invoke f
        pure nullopt
    | Fallback.returns_value f => do
        let r ← invoke f
        pure (of_value r)
    | Fallback.returns_optional f => do
        let r ← invoke f
        pure (of_self r)
    | Fallback.returns_base f => do
        let r ← invoke f
        pure (of_base r)
    | Fallback.returns_nullopt f => do
        let _ ← invoke f
        pure nullopt

/-! ## Construction, copy, move and assignment -/

/-- What the move operations of the element type leave in the value they move from: a
valid but unspecified value in general, the value itself for scalar types. -/
structure MoveOps (T : Type) where
  /-- the source of the move constructor of `T`, afterwards -/
  after_move_construct : T → T
  /-- the source of the move assignment of `T`, afterwards -/
  after_move_assign : T → T

/-- The move operations of an element type whose move is a copy, such as `int`. -/
def MoveOps.copying : MoveOps T := ⟨fun v => v, fun v => v⟩

/-- Move constructor of `std::optional<T>`: the new object and the source afterwards.  A
source that contains a value has its value moved from and still contains it. -/
def Base.move_construct (m : MoveOps T) (other : Base T) : Base T × Base T :=
  match other with
  | some v => (some v, some (m.after_move_construct v))
  | none => (none, none)

/-- Copy assignment of `std::optional<T>`: the destination afterwards. -/
def Base.copy_assign (self other : Base T) : Base T :=
  match self, other with
  | some _, some v => some v
  | none, some v => some v
  | some _, none => none
  | none, none => none

/-- Move assignment of `std::optional<T>`: the destination and the source afterwards. -/
def Base.move_assign (m : MoveOps T) (self other : Base T) : Base T × Base T :=
  match self, other with
  | some _, some v => (some v, some (m.after_move_assign v))
  | none, some v => (some v, some (m.after_move_construct v))
  | some _, none => (none, none)
  | none, none => (none, none)

/-- Constructor `optional(const Self& obj) = default` (line 37): the new object and `obj`
afterwards. -/
def copy_construct (obj : optional T) : optional T × optional T := (⟨obj.base⟩, obj)

/-- Constructor `optional(Self&& obj) = default` (line 38): the new object and `obj`
afterwards. -/
def move_construct (m : MoveOps T) (obj : optional T) : optional T × optional T :=
  (⟨(Base.move_construct m obj.base).1⟩, ⟨(Base.move_construct m obj.base).2⟩)

/-- Constructor `optional(const Base& obj)` (lines 40 to 42), which initialises the base
with `std::optional<T>{ obj }`: the new object and `obj` afterwards. -/
def of_base_copy (obj : Base T) : optional T × Base T := (⟨obj⟩, obj)

/-- Constructor `optional(Base&& obj)` (lines 44 to 46), which initialises the base with
`std::optional<T>{ std::move(obj) }`: the new object and `obj` afterwards. -/
def of_base_move (m : MoveOps T) (obj : Base T) : optional T × Base T :=
  (⟨(Base.move_construct m obj).1⟩, (Base.move_construct m obj).2)

/-- The object that a returned `optional&` refers to. -/
inductive Ref where
  /-- the reference is `*this` -/
  | self
  /-- the reference is the argument `obj` -/
  | obj
deriving DecidableEq, Repr

/-- How the body of a function with a non-void return type ends. -/
inductive Completion (α : Type) where
  /-- a `return` statement with this operand was executed -/
  | returns (a : α)
  /-- control reached the closing brace without a `return` statement -/
  | flows_off_the_end
deriving DecidableEq, Repr

/-- The effect of an assignment operator: `*this` and `obj` after the statements of the
body, and how the body ends. -/
structure Assignment (T : Type) where
  self : optional T
  obj : optional T
  result : Completion Ref
deriving DecidableEq, Repr

/-- Member `optional& operator= (const Self& obj)` (line 48).  The body is the single
statement `static_cast<Base&>(*this) = obj;`. -/
def copy_assign (self obj : optional T) : Assignment T :=
  { self := ⟨Base.copy_assign self.base obj.base⟩
    obj := obj
    result := Completion.flows_off_the_end }

/-- Member `optional& operator= (Self&& obj) noexcept` (line 49).  The body is the single
statement `static_cast<Base&>(*this) = std::move(obj);`. -/
def move_assign (m : MoveOps T) (self obj : optional T) : Assignment T :=
  { self := ⟨(Base.move_assign m self.base obj.base).1⟩
    obj := ⟨(Base.move_assign m self.base obj.base).2⟩
    result := Completion.flows_off_the_end }

/-! ## Chains of operations and lambdas -/

/-- A chain `o.step1(f1).step2(f2)...` of `transform` and `and_then` calls that takes an
optional over `T` to an optional over `V`. -/
inductive Pipeline (σ E : Type) : Type → Type → Type 1 where
  /-- the empty chain -/
  | done {T : Type} : Pipeline σ E T T
  /-- the call `.transform(func)` followed by the rest of the chain -/
  | transform {T U V : Type} (func : T → Callable σ E U) (rest : Pipeline σ E U V) :
      Pipeline σ E T V
  /-- the call `.and_then(func)` followed by the rest of the chain -/
  | and_then {T R U V : Type} [and_then_invocable R U] (func : T → Callable σ E R)
      (rest : Pipeline σ E U V) : Pipeline σ E T V

/-- Evaluation of a chain on a receiver, the steps applied in order. -/
def Pipeline.run : {T V : Type} → Pipeline σ E T V → optional T → Eff σ E (optional V)
  | _, _, Pipeline.done, o => pure o
  | _, _, Pipeline.transform func rest, o => do
      let r ← optional.transform o func
      rest.run r
  | _, _, Pipeline.and_then func rest, o => do
      let r ← optional.and_then o func
      rest.run r

/-- What the caller observes of an evaluation: how it ended and the caller's state. -/
def observe {α : Type} (r : Outcome E α × World σ) : Outcome E α × σ := (r.1, r.2.env)

/-- The outcome of a callable as the outcome of the expression that calls it. -/
def Outcome.of_except {α : Type} : Except E α → Outcome E α
  | Except.ok a => Outcome.returned a
  | Except.error e => Outcome.raised e

/-- The constructor applied to the value of an outcome. -/
def Outcome.map {α β : Type} (g : α → β) : Outcome E α → Outcome E β
  | Outcome.returned a => Outcome.returned (g a)
  | Outcome.raised e => Outcome.raised e
  | Outcome.undefined => Outcome.undefined

/-- The callable `h` is a lambda whose body is the expression `m`: called in any state it
returns what `m` returns or throws what `m` throws, and leaves the state `m` leaves. -/
def Callable.has_body (h : Callable σ E R) (m : Eff σ E R) : Prop :=
  ∀ (s : σ) (n : Nat), observe (m ⟨s, n⟩) = (Outcome.of_except (h s).1, (h s).2)

/-- A counting stub around a callable: the same callable, which also increments a
counter of its own, kept next to the caller's state, each time its body is entered. -/
def Callable.counted (f : Callable σ E R) : Callable (σ × Nat) E R :=
  fun s => ((f s.1).1, ((f s.1).2, s.2 + 1))

/-- The counting stub around the callable of a fallback. -/
def Fallback.counted : Fallback σ E T → Fallback (σ × Nat) E T
  | Fallback.returns_void f => Fallback.returns_void f.counted
  | Fallback.returns_value f => Fallback.returns_value f.counted
  | Fallback.returns_optional f => Fallback.returns_optional f.counted
  | Fallback.returns_base f => Fallback.returns_base f.counted
  | Fallback.returns_nullopt f => Fallback.returns_nullopt f.counted

end optional

end nonstd

namespace nonstd.optional

variable {T U R σ E : Type}

/-! ## Evaluation lemmas -/

theorem bind_returned {α β : Type} (m : Eff σ E α) (k : α → Eff σ E β) (w w1 : World σ) (a : α)
    (h : m w = (Outcome.returned a, w1)) : (m >>= k) w = k a w1 := by
  show Eff.bind m k w = k a w1
  simp [Eff.bind, h]

theorem bind_raised {α β : Type} (m : Eff σ E α) (k : α → Eff σ E β) (w w1 : World σ) (e : E)
    (h : m w = (Outcome.raised e, w1)) : (m >>= k) w = (Outcome.raised e, w1) := by
  show Eff.bind m k w = (Outcome.raised e, w1)
  simp [Eff.bind, h]

theorem pure_apply {α : Type} (a : α) (w : World σ) :
    (pure a : Eff σ E α) w = (Outcome.returned a, w) := rfl

theorem deref_present (o : optional T) (v : T) (w : World σ) (ho : o.base = some v) :
    (deref o : Eff σ E T) w = (Outcome.returned v, w) := by
  simp [deref, ho]

theorem deref_absent (o : optional T) (w : World σ) (ho : o.has_value = false) :
    (deref o : Eff σ E T) w = (Outcome.undefined, w) := by
  cases o with
  | mk b => cases b <;> simp_all [deref, has_value]

theorem invoke_ok (f : Callable σ E R) (w : World σ) (r : R) (s : σ)
    (hf : f w.env = (Except.ok r, s)) :
    invoke f w = (Outcome.returned r, ⟨s, w.invocations + 1⟩) := by
  simp [invoke, hf]

theorem invoke_error (f : Callable σ E R) (w : World σ) (e : E) (s : σ)
    (hf : f w.env = (Except.error e, s)) :
    invoke f w = (Outcome.raised e, ⟨s, w.invocations + 1⟩) := by
  simp [invoke, hf]

theorem has_value_of_base_eq (o : optional T) (v : T) (ho : o.base = some v) :
    o.has_value = true := by
  simp [has_value, ho]

theorem eq_nullopt_of_absent (o : optional T) (ho : o.has_value = false) : o = nullopt := by
  cases o with
  | mk b => cases b <;> simp_all [has_value, nullopt]

theorem eq_of_value_of_base_eq (o : optional T) (v : T) (ho : o.base = some v) :
    o = of_value v := by
  cases o with
  | mk b => simp_all [of_value]

theorem invoke_bind_pure {β : Type} (f : Callable σ E R) (g : R → β) (w : World σ) :
    (invoke f >>= fun r => (pure (g r) : Eff σ E β)) w = invoke_then f g w := by
  rcases hfw : f w.env with ⟨res, s⟩
  cases res with
  | ok r =>
    rw [bind_returned _ _ w _ r (invoke_ok f w r s hfw)]
    simp [invoke_then, hfw, pure_apply]
  | error e =>
    rw [bind_raised _ _ w _ e (invoke_error f w e s hfw)]
    simp [invoke_then, hfw]

theorem invoke_then_invocations {β : Type} (f : Callable σ E R) (g : R → β) (w : World σ) :
    (invoke_then f g w).2.invocations = w.invocations + 1 := rfl

theorem invoke_then_ne_undefined {β : Type} (f : Callable σ E R) (g : R → β) (w : World σ) :
    (invoke_then f g w).1 ≠ Outcome.undefined := by
  unfold invoke_then
  cases (f w.env).1 <;> simp

theorem invoke_then_error {β : Type} (f : Callable σ E R) (g : R → β) (w : World σ)
    (e : E) (s : σ) (hf : f w.env = (Except.error e, s)) :
    invoke_then f g w = (Outcome.raised e, ⟨s, w.invocations + 1⟩) := by
  simp [invoke_then, hf]

theorem transform_of_present (o : optional T) (v : T) (func : T → Callable σ E U)
    (w : World σ) (ho : o.base = some v) :
    transform o func w = invoke_then (func v) of_value w := by
  have hv := has_value_of_base_eq o v ho
  simp only [transform, hv, if_true]
  rw [bind_returned _ _ w w v (deref_present o v w ho)]
  exact invoke_bind_pure (func v) of_value w

theorem and_then_of_present [and_then_invocable R U] (o : optional T) (v : T)
    (func : T → Callable σ E R) (w : World σ) (ho : o.base = some v) :
    and_then o func w = invoke_then (func v) and_then_invocable.construct w := by
  have hv := has_value_of_base_eq o v ho
  simp only [and_then, hv, if_true]
  rw [bind_returned _ _ w w v (deref_present o v w ho)]
  exact invoke_bind_pure (func v) and_then_invocable.construct w

theorem or_else_of_absent (o : optional T) (func : Fallback σ E T) (w : World σ)
    (ho : o.has_value = false) :
    or_else o func w =
      match func with
      | Fallback.returns_void f => invoke_then f (fun _ => nullopt) w
      | Fallback.returns_value f => invoke_then f of_value w
      | Fallback.returns_optional f => invoke_then f of_self w
      | Fallback.returns_base f => invoke_then f of_base w
      | Fallback.returns_nullopt f => invoke_then f (fun _ => nullopt) w := by
  simp only [or_else, ho, Bool.false_eq_true, if_false]
  cases func <;> exact invoke_bind_pure _ _ w

theorem or_else_of_present (o : optional T) (func : Fallback σ E T) (w : World σ)
    (ho : o.has_value = true) : or_else o func w = (Outcome.returned o, w) := by
  cases o with
  | mk b =>
    cases b with
    | none => simp [has_value] at ho
    | some v =>
      simp only [or_else, ho, if_true]
      rfl

theorem present_cases (o : optional T) :
    o.has_value = false ∨ ∃ v, o.base = some v ∧ o.has_value = true := by
  cases o with
  | mk b =>
    cases b with
    | none => exact Or.inl rfl
    | some v => exact Or.inr ⟨v, rfl, rfl⟩

theorem call_error (func : Fallback σ E T) (s0 s : σ) (e : E)
    (h : func.call s0 = (Except.error e, s)) :
    match func with
    | Fallback.returns_void f => f s0 = (Except.error e, s)
    | Fallback.returns_value f => f s0 = (Except.error e, s)
    | Fallback.returns_optional f => f s0 = (Except.error e, s)
    | Fallback.returns_base f => f s0 = (Except.error e, s)
    | Fallback.returns_nullopt f => f s0 = (Except.error e, s) := by
  cases func with
  | returns_void f =>
    simp only [Fallback.call] at h ⊢
    rcases hf : f s0 with ⟨res, s1⟩
    cases res <;> simp_all [Except.map]
  | returns_value f =>
    simp only [Fallback.call] at h ⊢
    rcases hf : f s0 with ⟨res, s1⟩
    cases res <;> simp_all [Except.map]
  | returns_optional f =>
    simp only [Fallback.call] at h ⊢
    rcases hf : f s0 with ⟨res, s1⟩
    cases res <;> simp_all [Except.map]
  | returns_base f =>
    simp only [Fallback.call] at h ⊢
    rcases hf : f s0 with ⟨res, s1⟩
    cases res <;> simp_all [Except.map]
  | returns_nullopt f =>
    simp only [Fallback.call] at h ⊢
    rcases hf : f s0 with ⟨res, s1⟩
    cases res <;> simp_all [Except.map]

/-! ## transform -/

/-- C1: a receiver that is present and holds `v`, transformed by a callable that returns
`r` on `v`, gives a present optional that holds `r`; the callable has run once. -/
theorem transform_present (o : optional T) (v : T) (func : T → Callable σ E U)
    (w : World σ) (r : U) (s : σ)
    (ho : o.base = some v) (hf : func v w.env = (Except.ok r, s)) :
    transform o func w = (Outcome.returned (of_value r), ⟨s, w.invocations + 1⟩) := by
  have hv := has_value_of_base_eq o v ho
  simp only [transform, hv, if_true]
  rw [bind_returned _ _ w w v (deref_present o v w ho)]
  rw [bind_returned _ _ w _ r (invoke_ok (func v) w r s hf)]
  rfl

/-- C1, the scenario of the specification: the receiver holding 5 with `f(x) = x * 2`
gives a present optional holding 10. -/
theorem transform_present_witness :
    transform (of_value (5 : Int)) (fun x => (Callable.returning (x * 2) : Callable Unit Empty Int))
      ⟨(), 0⟩ = (Outcome.returned (of_value 10), ⟨(), 1⟩) :=
  transform_present (of_value 5) 5 (fun x => Callable.returning (x * 2)) ⟨(), 0⟩ 10 () rfl rfl

/-- C2: an absent receiver transformed by any callable gives an absent optional of the
result element type of the callable, and leaves the caller's state and the invocation
count as they were: the callable is not run. -/
theorem transform_absent (o : optional T) (func : T → Callable σ E U) (w : World σ)
    (ho : o.has_value = false) :
    transform o func w = (Outcome.returned (nullopt : optional U), w) := by
  simp only [transform, ho]
  rfl

/-- C2, the scenario of the specification with a counting stub: the empty receiver with
`f(x) = x * 2`, where every call of `f` increments a counter of the caller, gives an
absent optional and leaves the counter at zero. -/
theorem transform_absent_witness :
    (nullopt : optional Int).has_value = false ∧
    transform (nullopt : optional Int)
      (fun x => (fun n => (Except.ok (x * 2), n + 1) : Callable Nat Empty Int)) ⟨0, 0⟩
      = (Outcome.returned (nullopt : optional Int), ⟨0, 0⟩) :=
  ⟨rfl, transform_absent nullopt _ ⟨0, 0⟩ rfl⟩

/-! ## and_then -/

/-- C3: on a receiver that is present and holds `v`, `and_then` with a callable that
returns the optional `r` on `v` returns `r` itself, at one level of nesting, after one
call; in particular the result is absent exactly when `r` is absent.  When the callable
returns the base class `std::optional`, the result is the optional over that base. -/
theorem and_then_present (o : optional T) (v : T) (w : World σ) (ho : o.base = some v) :
    (∀ (func : T → Callable σ E (optional U)) (r : optional U) (s : σ),
      func v w.env = (Except.ok r, s) →
        and_then o func w = (Outcome.returned r, ⟨s, w.invocations + 1⟩) ∧
        ((and_then o func w).1 = Outcome.returned nullopt ↔ r = nullopt)) ∧
    (∀ (func : T → Callable σ E (Base U)) (b : Base U) (s : σ),
      func v w.env = (Except.ok b, s) →
        and_then o func w = (Outcome.returned (of_base b), ⟨s, w.invocations + 1⟩) ∧
        ((and_then o func w).1 = Outcome.returned nullopt ↔ b = none)) := by
  have hv := has_value_of_base_eq o v ho
  refine ⟨fun func r s hf => ?_, fun func b s hf => ?_⟩
  · have h : and_then o func w = (Outcome.returned r, ⟨s, w.invocations + 1⟩) := by
      simp only [and_then, hv, if_true]
      rw [bind_returned _ _ w w v (deref_present o v w ho)]
      rw [bind_returned _ _ w _ r (invoke_ok (func v) w r s hf)]
      rfl
    refine ⟨h, ?_⟩
    rw [h]
    constructor
    · intro h1
      injection h1
    · intro h1
      rw [h1]
  · have h : and_then o func w = (Outcome.returned (of_base b), ⟨s, w.invocations + 1⟩) := by
      simp only [and_then, hv, if_true]
      rw [bind_returned _ _ w w v (deref_present o v w ho)]
      rw [bind_returned _ _ w _ b (invoke_ok (func v) w b s hf)]
      rfl
    refine ⟨h, ?_⟩
    rw [h]
    constructor
    · intro h1
      have h2 : (of_base b : optional U) = nullopt := by injection h1
      simpa [of_base, nullopt] using h2
    · intro h1
      rw [h1]
      rfl

/-- C3, the scenario of the specification: the receiver holding 5 with
`f(x) = x > 0 ? optional{x} : optional{}` gives a present optional holding 5. -/
theorem and_then_present_witness :
    and_then (of_value (5 : Int))
      (fun x => (Callable.returning (if x > 0 then of_value x else nullopt) :
        Callable Unit Empty (optional Int))) ⟨(), 0⟩
      = (Outcome.returned (of_value 5), ⟨(), 1⟩) :=
  ((and_then_present (of_value (5 : Int)) 5 ⟨(), 0⟩ rfl).1
    (fun x => Callable.returning (if x > 0 then of_value x else nullopt))
    (of_value 5) () rfl).1

/-- C4: on an absent receiver `and_then` returns an absent optional over the element
type of the result of the callable, whether that result is the derived or the base
optional, and leaves the caller's state and the invocation count as they were: the
callable is not run. -/
theorem and_then_absent [and_then_invocable R U] (o : optional T)
    (func : T → Callable σ E R) (w : World σ) (ho : o.has_value = false) :
    and_then o func w = (Outcome.returned (nullopt : optional U), w) := by
  simp only [and_then, ho]
  rfl

/-- C4 on the empty receiver with a counting stub that returns a present optional: the
result is absent and the counter stays at zero. -/
theorem and_then_absent_witness :
    (nullopt : optional Int).has_value = false ∧
    and_then (nullopt : optional Int)
      (fun x => (fun n => (Except.ok (of_value x), n + 1) : Callable Nat Empty (optional Int)))
      ⟨0, 0⟩ = (Outcome.returned (nullopt : optional Int), ⟨0, 0⟩) :=
  ⟨rfl, and_then_absent nullopt _ ⟨0, 0⟩ rfl⟩

/-! ## or_else -/

/-- C5: on a present receiver `or_else` returns an optional equal to the receiver, for a
fallback of any result type (void or not), and leaves the caller's state and the
invocation count as they were: the fallback is not run. -/
theorem or_else_present (o : optional T) (func : Fallback σ E T) (w : World σ)
    (ho : o.has_value = true) :
    or_else o func w = (Outcome.returned o, w) := by
  cases o with
  | mk b =>
    cases b with
    | none => simp [has_value] at ho
    | some v =>
      simp only [or_else, ho, if_true]
      rfl

/-- C5 on the receiver holding 7, with a counting stub that returns a value and with one
that returns nothing: the result is the receiver and the counter stays at zero. -/
theorem or_else_present_witness :
    or_else (of_value (7 : Int))
      (Fallback.returns_value (fun n => (Except.ok 42, n + 1)) : Fallback Nat Empty Int) ⟨0, 0⟩
      = (Outcome.returned (of_value 7), ⟨0, 0⟩) ∧
    or_else (of_value (7 : Int))
      (Fallback.returns_void (fun n => (Except.ok (), n + 1)) : Fallback Nat Empty Int) ⟨0, 0⟩
      = (Outcome.returned (of_value 7), ⟨0, 0⟩) :=
  ⟨or_else_present (of_value 7) _ ⟨0, 0⟩ rfl, or_else_present (of_value 7) _ ⟨0, 0⟩ rfl⟩

/-- On an absent receiver, a fallback whose result is itself an optional over `T`
(derived or base) gives that optional as it is, and a fallback whose result is
`std::nullopt` gives an absent optional; the fallback runs once. -/
theorem or_else_absent_returns_optional (o : optional T) (w : World σ)
    (ho : o.has_value = false) :
    (∀ (f : Callable σ E (optional T)) (r : optional T) (s : σ), f w.env = (Except.ok r, s) →
      or_else o (Fallback.returns_optional f) w
        = (Outcome.returned r, ⟨s, w.invocations + 1⟩)) ∧
    (∀ (f : Callable σ E (Base T)) (b : Base T) (s : σ), f w.env = (Except.ok b, s) →
      or_else o (Fallback.returns_base f) w
        = (Outcome.returned (of_base b), ⟨s, w.invocations + 1⟩)) ∧
    (∀ (f : Callable σ E nullopt_t) (n : nullopt_t) (s : σ), f w.env = (Except.ok n, s) →
      or_else o (Fallback.returns_nullopt f) w
        = (Outcome.returned nullopt, ⟨s, w.invocations + 1⟩)) := by
  refine ⟨fun f r s hf => ?_, fun f b s hf => ?_, fun f n s hf => ?_⟩
  · simp only [or_else, ho, Bool.false_eq_true, if_false]
    rw [bind_returned _ _ w _ r (invoke_ok f w r s hf)]
    rfl
  · simp only [or_else, ho, Bool.false_eq_true, if_false]
    rw [bind_returned _ _ w _ b (invoke_ok f w b s hf)]
    rfl
  · simp only [or_else, ho, Bool.false_eq_true, if_false]
    rw [bind_returned _ _ w _ n (invoke_ok f w n s hf)]
    rfl

/-- C6: on an absent receiver over `T`, `or_else` with a fallback that returns a value `r`
of `T` returns a present optional that holds `r`, the result of `f()`; the fallback has
run once and the caller's state is the one it left. -/
theorem or_else_absent_returns_value (o : optional T) (f : Callable σ E T) (w : World σ)
    (r : T) (s : σ) (ho : o.has_value = false) (hf : f w.env = (Except.ok r, s)) :
    or_else o (Fallback.returns_value f) w
      = (Outcome.returned (of_value r), ⟨s, w.invocations + 1⟩) ∧
    (of_value r).has_value = true ∧
    (of_value r).base = some r := by
  refine ⟨?_, rfl, rfl⟩
  simp only [or_else, ho, Bool.false_eq_true, if_false]
  rw [bind_returned _ _ w _ r (invoke_ok f w r s hf)]
  rfl

/-- C6, the scenario of the specification: the empty receiver with `f() = 42` gives a
present optional holding 42. -/
theorem or_else_absent_returns_value_witness :
    (nullopt : optional Int).has_value = false ∧
    or_else (nullopt : optional Int)
      (Fallback.returns_value (Callable.returning 42) : Fallback Unit Empty Int) ⟨(), 0⟩
      = (Outcome.returned (of_value 42), ⟨(), 1⟩) :=
  ⟨rfl, (or_else_absent_returns_value (nullopt : optional Int) (Callable.returning 42)
    ⟨(), 0⟩ 42 () rfl rfl).1⟩

/-- C7: on an absent receiver, `or_else` with a fallback whose result type is `void` runs
the fallback exactly once, and when the fallback completes it returns an absent optional
over `T`. -/
theorem or_else_absent_returns_void (o : optional T) (f : Callable σ E Unit) (w : World σ)
    (ho : o.has_value = false) :
    (or_else o (Fallback.returns_void f) w).2 = ⟨(f w.env).2, w.invocations + 1⟩ ∧
    (∀ s : σ, f w.env = (Except.ok (), s) →
      or_else o (Fallback.returns_void f : Fallback σ E T) w
        = (Outcome.returned nullopt, ⟨s, w.invocations + 1⟩)) := by
  constructor
  · simp only [or_else, ho, Bool.false_eq_true, if_false]
    rcases hfw : f w.env with ⟨res, s⟩
    cases res with
    | ok u =>
      rw [bind_returned _ _ w _ u (invoke_ok f w u s hfw)]
      rfl
    | error e =>
      rw [bind_raised _ _ w _ e (invoke_error f w e s hfw)]
  · intro s hf
    simp only [or_else, ho, Bool.false_eq_true, if_false]
    rw [bind_returned _ _ w _ () (invoke_ok f w () s hf)]
    rfl

/-- C7 on the empty receiver with a counting stub that returns nothing: the result is
absent and the counter of the stub reads one. -/
theorem or_else_absent_returns_void_witness :
    (nullopt : optional Int).has_value = false ∧
    or_else (nullopt : optional Int)
      (Fallback.returns_void (fun n => (Except.ok (), n + 1)) : Fallback Nat Empty Int) ⟨0, 0⟩
      = (Outcome.returned nullopt, ⟨1, 1⟩) :=
  ⟨rfl, (or_else_absent_returns_void (nullopt : optional Int) (fun n => (Except.ok (), n + 1))
    ⟨0, 0⟩ rfl).2 1 rfl⟩

/-! ## Properties of all three operations -/

theorem invoke_then_world {β : Type} (f : Callable σ E R) (g : R → β) (w : World σ) :
    (invoke_then f g w).2 = ⟨(f w.env).2, w.invocations + 1⟩ := rfl

/-- C8: each operation runs its callable at most once.  `transform` and `and_then` run it
exactly once on a present receiver and not at all on an absent one; `or_else` runs it
exactly once on an absent receiver and not at all on a present one.  This holds whether
the callable returns or throws, and is read off three ways: the count of entries into the
callable; the caller's state, which is the state one run of the callable leaves, started
from the initial state, or the initial state itself; and the counter of a counting stub
around the callable, which goes up by one or stays. -/
theorem invocation_count {V : Type} [and_then_invocable R U] (o : optional T) (w : World σ)
    (k : Nat) :
    (∀ func : T → Callable σ E V,
      (transform o func w).2.invocations = w.invocations + (if o.has_value then 1 else 0) ∧
      (transform o func w).2.env
        = (match o.base with
          | some v => (func v w.env).2
          | none => w.env) ∧
      (transform o (fun x => (func x).counted) ⟨(w.env, k), w.invocations⟩).2.env
        = (match o.base with
          | some v => ((func v w.env).2, k + 1)
          | none => (w.env, k))) ∧
    (∀ func : T → Callable σ E R,
      (and_then o func w).2.invocations = w.invocations + (if o.has_value then 1 else 0) ∧
      (and_then o func w).2.env
        = (match o.base with
          | some v => (func v w.env).2
          | none => w.env) ∧
      (and_then o (fun x => (func x).counted) ⟨(w.env, k), w.invocations⟩).2.env
        = (match o.base with
          | some v => ((func v w.env).2, k + 1)
          | none => (w.env, k))) ∧
    (∀ func : Fallback σ E T,
      (or_else o func w).2.invocations = w.invocations + (if o.has_value then 0 else 1) ∧
      (or_else o func w).2.env
        = (match o.base with
          | some _ => w.env
          | none => (func.call w.env).2) ∧
      (or_else o func.counted ⟨(w.env, k), w.invocations⟩).2.env
        = (match o.base with
          | some _ => (w.env, k)
          | none => ((func.call w.env).2, k + 1))) := by
  cases o with
  | mk b =>
    cases b with
    | none =>
      refine ⟨fun func => ⟨rfl, rfl, rfl⟩, fun func => ⟨rfl, rfl, rfl⟩, fun func => ?_⟩
      have ho : (optional.mk none : optional T).has_value = false := rfl
      refine ⟨?_, ?_, ?_⟩
      · rw [or_else_of_absent _ func w ho]
        cases func <;> rfl
      · rw [or_else_of_absent _ func w ho]
        cases func <;> rfl
      · rw [or_else_of_absent _ func.counted _ ho]
        cases func <;> rfl
    | some v =>
      have ho : (optional.mk (some v) : optional T).has_value = true := rfl
      refine ⟨fun func => ?_, fun func => ?_, fun func => ?_⟩
      · rw [transform_of_present _ v func w rfl, transform_of_present _ v _ _ rfl]
        exact ⟨rfl, rfl, rfl⟩
      · rw [and_then_of_present _ v func w rfl, and_then_of_present _ v _ _ rfl]
        exact ⟨rfl, rfl, rfl⟩
      · rw [or_else_of_present _ func w ho, or_else_of_present _ func.counted _ ho]
        exact ⟨rfl, rfl, rfl⟩

/-- C9: none of the three operations applies `operator*` to an absent receiver: for every
receiver, present or absent, every callable and every state, the evaluation does not end
in the undefined behaviour of dereferencing an empty optional. -/
theorem no_unchecked_dereference {V : Type} [and_then_invocable R U] (o : optional T) (w : World σ) :
    (∀ func : T → Callable σ E V, (transform o func w).1 ≠ Outcome.undefined) ∧
    (∀ func : T → Callable σ E R, (and_then o func w).1 ≠ Outcome.undefined) ∧
    (∀ func : Fallback σ E T, (or_else o func w).1 ≠ Outcome.undefined) := by
  rcases present_cases o with ho | ⟨v, hb, ho⟩
  · refine ⟨fun func => ?_, fun func => ?_, fun func => ?_⟩
    · simp only [transform, ho]
      intro h
      cases h
    · simp only [and_then, ho]
      intro h
      cases h
    · rw [or_else_of_absent o func w ho]
      cases func <;> exact invoke_then_ne_undefined _ _ w
  · refine ⟨fun func => ?_, fun func => ?_, fun func => ?_⟩
    · rw [transform_of_present o v func w hb]
      exact invoke_then_ne_undefined _ _ w
    · rw [and_then_of_present o v func w hb]
      exact invoke_then_ne_undefined _ _ w
    · rw [or_else_of_present o func w ho]
      intro h
      cases h

/-- C10: when the callable is run and throws `e`, the operation ends with the same `e` in
flight and the state the callable left: `transform` and `and_then` on a receiver that
holds `v`, `or_else` on an absent receiver.  When the callable is not run, the operation
returns a value whatever the callable would do: `transform` and `and_then` on an absent
receiver return the absent optional, `or_else` on a present receiver returns it. -/
theorem failure_propagation {V : Type} [and_then_invocable R U] (w : World σ) :
    (∀ (o : optional T) (v : T) (func : T → Callable σ E V) (e : E) (s : σ),
      o.base = some v → func v w.env = (Except.error e, s) →
        transform o func w = (Outcome.raised e, ⟨s, w.invocations + 1⟩)) ∧
    (∀ (o : optional T) (v : T) (func : T → Callable σ E R) (e : E) (s : σ),
      o.base = some v → func v w.env = (Except.error e, s) →
        and_then o func w = (Outcome.raised e, ⟨s, w.invocations + 1⟩)) ∧
    (∀ (o : optional T) (func : Fallback σ E T) (e : E) (s : σ),
      o.has_value = false → func.call w.env = (Except.error e, s) →
        or_else o func w = (Outcome.raised e, ⟨s, w.invocations + 1⟩)) ∧
    (∀ (o : optional T) (func : T → Callable σ E V),
      o.has_value = false → transform o func w = (Outcome.returned nullopt, w)) ∧
    (∀ (o : optional T) (func : T → Callable σ E R),
      o.has_value = false → and_then o func w = (Outcome.returned nullopt, w)) ∧
    (∀ (o : optional T) (func : Fallback σ E T),
      o.has_value = true → or_else o func w = (Outcome.returned o, w)) := by
  refine ⟨fun o v func e s hb hf => ?_, fun o v func e s hb hf => ?_,
    fun o func e s ho hf => ?_, fun o func ho => ?_, fun o func ho => ?_,
    fun o func ho => or_else_of_present o func w ho⟩
  · rw [transform_of_present o v func w hb]
    exact invoke_then_error _ _ w e s hf
  · rw [and_then_of_present o v func w hb]
    exact invoke_then_error _ _ w e s hf
  · rw [or_else_of_absent o func w ho]
    have h := call_error func w.env s e hf
    cases func <;> exact invoke_then_error _ _ w e s h
  · simp only [transform, ho]
    rfl
  · simp only [and_then, ho]
    rfl

/-- C10 on concrete inputs, with a callable that throws the error 3 on every input: on
the receiver holding 5, `transform` and `and_then` end with 3 in flight, as does
`or_else` on the empty receiver; on the empty receiver `transform` and `and_then` return
the absent optional, and on the receiver holding 5 `or_else` returns it. -/
theorem failure_propagation_witness :
    transform (of_value (5 : Int)) (fun _ => (Callable.throwing 3 : Callable Unit Nat Int)) ⟨(), 0⟩
      = (Outcome.raised 3, ⟨(), 1⟩) ∧
    and_then (of_value (5 : Int))
      (fun _ => (Callable.throwing 3 : Callable Unit Nat (optional Int))) ⟨(), 0⟩
      = (Outcome.raised 3, ⟨(), 1⟩) ∧
    or_else (nullopt : optional Int)
      (Fallback.returns_value (Callable.throwing 3) : Fallback Unit Nat Int) ⟨(), 0⟩
      = (Outcome.raised 3, ⟨(), 1⟩) ∧
    transform (nullopt : optional Int)
      (fun _ => (Callable.throwing 3 : Callable Unit Nat Int)) ⟨(), 0⟩
      = (Outcome.returned nullopt, ⟨(), 0⟩) ∧
    and_then (nullopt : optional Int)
      (fun _ => (Callable.throwing 3 : Callable Unit Nat (optional Int))) ⟨(), 0⟩
      = (Outcome.returned nullopt, ⟨(), 0⟩) ∧
    or_else (of_value (5 : Int))
      (Fallback.returns_value (Callable.throwing 3) : Fallback Unit Nat Int) ⟨(), 0⟩
      = (Outcome.returned (of_value 5), ⟨(), 0⟩) :=
  have h := failure_propagation (R := optional Int) (T := Int) (V := Int) (E := Nat)
    (⟨(), 0⟩ : World Unit)
  ⟨h.1 (of_value 5) 5 _ 3 () rfl rfl,
   h.2.1 (of_value 5) 5 _ 3 () rfl rfl,
   h.2.2.1 nullopt _ 3 () rfl rfl,
   h.2.2.2.1 nullopt _ rfl,
   h.2.2.2.2.1 nullopt _ rfl,
   h.2.2.2.2.2 (of_value 5) _ rfl⟩

/-! ## Construction, copy, move and assignment -/

theorem base_copy_assign_eq (d b : Base T) : Base.copy_assign d b = b := by
  cases d <;> cases b <;> rfl

theorem base_move_assign_fst (m : MoveOps T) (d b : Base T) :
    (Base.move_assign m d b).1 = b := by
  cases d <;> cases b <;> rfl

theorem base_move_assign_snd_isSome (m : MoveOps T) (d b : Base T) :
    (Base.move_assign m d b).2.isSome = b.isSome := by
  cases d <;> cases b <;> rfl

theorem base_move_construct_fst (m : MoveOps T) (b : Base T) :
    (Base.move_construct m b).1 = b := by
  cases b <;> rfl

theorem base_move_construct_snd (m : MoveOps T) (b : Base T) :
    (Base.move_construct m b).2 = b.map m.after_move_construct := by
  cases b <;> rfl

/-- C11: copy construction gives an optional equal to the source and leaves the source as
it was, and the statement of copy assignment leaves the destination, whatever it held,
equal to the source and the source as it was; but the body of `operator=` ends without a
`return` statement, so the assignment does not yield the destination (nor anything). -/
theorem copy_replicates_but_assignment_returns_nothing (d s : optional T) :
    copy_construct s = (s, s) ∧
    (copy_assign d s).self = s ∧
    (copy_assign d s).obj = s ∧
    (copy_assign d s).result = Completion.flows_off_the_end ∧
    (copy_assign d s).result ≠ Completion.returns Ref.self := by
  refine ⟨rfl, ?_, rfl, rfl, ?_⟩
  · cases s with
    | mk b => simp [copy_assign, base_copy_assign_eq]
  · intro h
    cases h

/-- C12, as stated, fails: move construction from the `optional<int>` holding 5, from the
extended type or from the plain base, leaves the source present, not absent. -/
theorem move_empties_source_counterexample :
    (move_construct MoveOps.copying (of_value (5 : Int))).1 = of_value 5 ∧
    (move_construct MoveOps.copying (of_value (5 : Int))).2.has_value = true ∧
    (of_base_move MoveOps.copying (some (5 : Int))).2.isSome = true ∧
    ¬ (∀ s : optional Int, s.has_value = true →
        (move_construct MoveOps.copying s).2.has_value = false) := by
  refine ⟨rfl, rfl, rfl, fun h => ?_⟩
  have h1 := h (of_value 5) rfl
  simp [move_construct, Base.move_construct, of_value, has_value] at h1

/-- C12, amended: for a source that is present and holds `v`, move construction, from the
extended type or from the plain base, gives a destination that is present and holds `v`,
and leaves the source present, holding what the move of the element type left of `v`. -/
theorem move_transfers_and_source_stays_present (m : MoveOps T) (s : optional T) (v : T)
    (hs : s.base = some v) :
    (move_construct m s).1 = of_value v ∧
    (move_construct m s).2 = of_value (m.after_move_construct v) ∧
    (move_construct m s).2.has_value = true ∧
    (of_base_move m s.base).1 = of_value v ∧
    (of_base_move m s.base).2 = some (m.after_move_construct v) := by
  cases s with
  | mk b =>
    simp only at hs
    subst hs
    exact ⟨rfl, rfl, rfl, rfl, rfl⟩

/-- C12 on the `optional<int>` holding 5, moved into a new object: the destination holds 5
and the source still holds 5. -/
theorem move_transfers_and_source_stays_present_witness :
    (move_construct MoveOps.copying (of_value (5 : Int))) = (of_value 5, of_value 5) ∧
    (move_construct MoveOps.copying (of_value (5 : Int))).2.has_value = true ∧
    (of_base_move MoveOps.copying (some (5 : Int))) = (of_value 5, some 5) :=
  have h := move_transfers_and_source_stays_present MoveOps.copying (of_value (5 : Int)) 5 rfl
  ⟨Prod.ext h.1 h.2.1, h.2.2.1, Prod.ext h.2.2.2.1 h.2.2.2.2⟩

/-- C13: the extended optional constructed from a plain optional `p`, by copy or by move,
is present exactly when `p` is, contains a value exactly when `p` contains that value,
and its base subobject is `p`; the copy leaves `p` as it was. -/
theorem conversion_from_base_preserves_state (m : MoveOps T) (p : Base T) :
    ((of_base_copy p).1.has_value = p.isSome ∧
      (∀ v, (of_base_copy p).1.base = some v ↔ p = some v) ∧
      (of_base_copy p).1.base = p ∧
      (of_base_copy p).2 = p ∧
      (of_base_copy p).1 = of_base p) ∧
    ((of_base_move m p).1.has_value = p.isSome ∧
      (∀ v, (of_base_move m p).1.base = some v ↔ p = some v) ∧
      (of_base_move m p).1.base = p ∧
      (of_base_move m p).1 = of_base p) := by
  refine ⟨⟨rfl, fun v => Iff.rfl, rfl, rfl, rfl⟩, ?_⟩
  have h : (of_base_move m p).1 = of_base p := by
    simp [of_base_move, of_base, base_move_construct_fst]
  rw [h]
  exact ⟨rfl, fun v => Iff.rfl, rfl, rfl⟩

/-- C14: the default-constructed extended optional is absent, and it is what `and_then`
returns on an absent receiver (`ResultType{}`, line 72); the extended optional
constructed from a value `v` is present and dereferences to exactly `v`. -/
theorem construction_establishes_discriminant [and_then_invocable R U] (v : T)
    (func : T → Callable σ E R) (w : World σ) :
    (nullopt : optional T).has_value = false ∧
    (nullopt : optional T).base = none ∧
    and_then (nullopt : optional T) func w = (Outcome.returned (nullopt : optional U), w) ∧
    (of_value v).has_value = true ∧
    (of_value v).base = some v ∧
    (deref (of_value v) : Eff σ E T) w = (Outcome.returned v, w) :=
  ⟨rfl, rfl, rfl, rfl, rfl, rfl⟩

/-! ## Chains -/

theorem run_absent {V : Type} (p : Pipeline σ E T V) (o : optional T) (w : World σ)
    (ho : o.has_value = false) :
    p.run o w = (Outcome.returned (nullopt : optional V), w) := by
  induction p with
  | done =>
    rw [eq_nullopt_of_absent o ho]
    rfl
  | transform func rest ih =>
    have h1 : transform o func w = (Outcome.returned nullopt, w) := by
      simp only [transform, ho]
      rfl
    simp only [Pipeline.run]
    rw [bind_returned _ _ w w nullopt h1]
    exact ih nullopt rfl
  | and_then func rest ih =>
    have h1 : and_then o func w = (Outcome.returned nullopt, w) := by
      simp only [and_then, ho]
      rfl
    simp only [Pipeline.run]
    rw [bind_returned _ _ w w nullopt h1]
    exact ih nullopt rfl

/-- C15: a chain of `transform` and `and_then` steps of any length, with any callables,
applied to an absent receiver gives an absent optional and leaves the caller's state and
the invocation count as they were: none of the callables is run. -/
theorem absence_short_circuits_pipeline {V : Type} (p : Pipeline σ E T V) (o : optional T)
    (w : World σ) (ho : o.has_value = false) :
    p.run o w = (Outcome.returned (nullopt : optional V), w) ∧
    (p.run o w).2.invocations = w.invocations := by
  rw [run_absent p o w ho]
  exact ⟨rfl, rfl⟩

/-- C15 on the empty `optional<int>` with a chain of three steps whose callables are
counting stubs, one of which throws: the result is absent and the counter stays at zero. -/
theorem absence_short_circuits_pipeline_witness :
    (nullopt : optional Int).has_value = false ∧
    (Pipeline.transform (fun x => (fun n => (Except.ok (x * 2), n + 1) : Callable Nat Nat Int))
      (Pipeline.and_then
        (fun x => (fun n => (Except.ok (of_value (x + 1)), n + 1) :
          Callable Nat Nat (optional Int)))
        (Pipeline.transform (fun _ => (fun n => (Except.error 3, n + 1) : Callable Nat Nat Int))
          Pipeline.done))).run (nullopt : optional Int) ⟨0, 0⟩
      = (Outcome.returned (nullopt : optional Int), ⟨0, 0⟩) :=
  ⟨rfl, (absence_short_circuits_pipeline _ nullopt ⟨0, 0⟩ rfl).1⟩

/-! ## Algebraic laws -/

theorem of_self_eq (o : optional T) : of_self o = o := rfl

theorem map_of_self {V : Type} (x : Outcome E (optional V)) : Outcome.map of_self x = x := by
  cases x <;> rfl

theorem observe_invoke (f : Callable σ E R) (w : World σ) :
    observe (invoke f w) = (Outcome.of_except (f w.env).1, (f w.env).2) := by
  rcases hfw : f w.env with ⟨res, s⟩
  cases res with
  | ok r => rw [invoke_ok f w r s hfw]; rfl
  | error e => rw [invoke_error f w e s hfw]; rfl

theorem observe_invoke_then {β : Type} (f : Callable σ E R) (c : R → β) (w : World σ) :
    observe (invoke_then f c w) = (Outcome.map c (Outcome.of_except (f w.env).1), (f w.env).2) := by
  unfold invoke_then observe
  cases (f w.env).1 <;> rfl

theorem bind_of_invoke_then {β γ : Type} (m : Eff σ E β) (f : Callable σ E R) (c : R → β)
    (k : β → Eff σ E γ) (w : World σ) (hm : m w = invoke_then f c w) :
    (m >>= k) w = (invoke f >>= fun r => k (c r)) w := by
  rcases hfw : f w.env with ⟨res, s⟩
  cases res with
  | ok r =>
    have h1 : m w = (Outcome.returned (c r), ⟨s, w.invocations + 1⟩) := by
      rw [hm]
      simp [invoke_then, hfw]
    rw [bind_returned _ _ w _ (c r) h1, bind_returned _ _ w _ r (invoke_ok f w r s hfw)]
  | error e =>
    have h1 : m w = (Outcome.raised e, ⟨s, w.invocations + 1⟩) := by
      rw [hm]
      simp [invoke_then, hfw]
    rw [bind_raised _ _ w _ e h1, bind_raised _ _ w _ e (invoke_error f w e s hfw)]

theorem observe_body (h : Callable σ E R) (m : Eff σ E R) (hh : h.has_body m) (w : World σ) :
    observe (m w) = (Outcome.of_except (h w.env).1, (h w.env).2) :=
  hh w.env w.invocations

theorem observe_bind_absent {β γ : Type} (m : Eff σ E (optional β)) (k : optional β → Eff σ E γ)
    (w : World σ) (hm : m w = (Outcome.returned nullopt, w)) :
    (m >>= k) w = k nullopt w :=
  bind_returned m k w w nullopt hm

/-- C16: `and_then` is associative.  For callables `f` and `g` that return optionals, and a
lambda `h` whose body is `f(x).and_then(g)`, the chain `o.and_then(f).and_then(g)` and the
call `o.and_then(h)` end the same way with the same result and leave the same state. -/
theorem and_then_assoc {V : Type} (o : optional T) (f : T → Callable σ E (optional U))
    (g : U → Callable σ E (optional V)) (h : T → Callable σ E (optional V)) (w : World σ)
    (hh : ∀ x, (h x).has_body (invoke (f x) >>= fun r => and_then r g)) :
    observe ((and_then o f >>= fun r => and_then r g) w) = observe (and_then o h w) := by
  rcases present_cases o with ho | ⟨v, hb, -⟩
  · have h1 : and_then o f w = (Outcome.returned nullopt, w) := by
      simp only [and_then, ho]
      rfl
    have h2 : and_then o h w = (Outcome.returned nullopt, w) := by
      simp only [and_then, ho]
      rfl
    rw [bind_returned _ _ w w nullopt h1, h2]
    rfl
  · rw [bind_of_invoke_then _ (f v) of_self _ w (and_then_of_present o v f w hb)]
    rw [and_then_of_present o v h w hb, observe_invoke_then]
    have h3 := observe_body (h v) _ (hh v) w
    have h4 : and_then_invocable.construct = (of_self : optional V → optional V) := rfl
    rw [h4, map_of_self, ← h3]
    rfl

/-- C16 on the `optional<int>` holding 5 with `f(x) = x > 0 ? optional{x + 1} : optional{}`
and `g(y) = optional{y * 2}`: both sides give the optional holding 12. -/
theorem and_then_assoc_witness :
    observe ((and_then (of_value (5 : Int))
        (fun x => (Callable.returning (if x > 0 then of_value (x + 1) else nullopt) :
          Callable Unit Empty (optional Int)))
      >>= fun r => and_then r
        (fun y => (Callable.returning (of_value (y * 2)) : Callable Unit Empty (optional Int))))
      ⟨(), 0⟩)
    = observe (and_then (of_value (5 : Int))
        (fun x => (Callable.returning (if x > 0 then of_value ((x + 1) * 2) else nullopt) :
          Callable Unit Empty (optional Int))) ⟨(), 0⟩) ∧
    observe (and_then (of_value (5 : Int))
        (fun x => (Callable.returning (if x > 0 then of_value ((x + 1) * 2) else nullopt) :
          Callable Unit Empty (optional Int))) ⟨(), 0⟩)
    = (Outcome.returned (of_value 12), ()) :=
  ⟨and_then_assoc (of_value (5 : Int)) _ _ _ ⟨(), 0⟩ (by
      intro x s n
      by_cases hx : x > 0
      · simp only [hx, if_true]
        rfl
      · simp only [hx, if_false]
        rfl), rfl⟩

theorem observe_bind_map {β γ : Type} (F : Callable σ E R) (k1 : R → Eff σ E γ)
    (k2 : R → Eff σ E β) (c : β → γ) (w : World σ)
    (hk : ∀ r w1, observe (k1 r w1) = (Outcome.map c (observe (k2 r w1)).1, (observe (k2 r w1)).2)) :
    observe ((invoke F >>= k1) w)
      = (Outcome.map c (observe ((invoke F >>= k2) w)).1, (observe ((invoke F >>= k2) w)).2) := by
  rcases hfw : F w.env with ⟨res, s⟩
  cases res with
  | ok r =>
    rw [bind_returned _ k1 w _ r (invoke_ok F w r s hfw),
      bind_returned _ k2 w _ r (invoke_ok F w r s hfw)]
    exact hk r _
  | error e =>
    rw [bind_raised _ k1 w _ e (invoke_error F w e s hfw),
      bind_raised _ k2 w _ e (invoke_error F w e s hfw)]
    rfl

/-- C17: `transform` preserves composition.  For callables `f` and `g` and a lambda `h`
whose body is `g(f(x))`, the chain `o.transform(f).transform(g)` and the call
`o.transform(h)` end the same way with the same result and leave the same state. -/
theorem transform_comp {V : Type} (o : optional T) (f : T → Callable σ E U)
    (g : U → Callable σ E V) (h : T → Callable σ E V) (w : World σ)
    (hh : ∀ x, (h x).has_body (invoke (f x) >>= fun y => invoke (g y))) :
    observe ((transform o f >>= fun r => transform r g) w) = observe (transform o h w) := by
  rcases present_cases o with ho | ⟨v, hb, -⟩
  · have h1 : transform o f w = (Outcome.returned nullopt, w) := by
      simp only [transform, ho]
      rfl
    have h2 : transform o h w = (Outcome.returned nullopt, w) := by
      simp only [transform, ho]
      rfl
    rw [bind_returned _ _ w w nullopt h1, h2]
    rfl
  · rw [bind_of_invoke_then _ (f v) of_value _ w (transform_of_present o v f w hb)]
    rw [transform_of_present o v h w hb, observe_invoke_then]
    have h3 := observe_body (h v) _ (hh v) w
    rw [observe_bind_map (f v) (fun y => transform (of_value y) g) (fun y => invoke (g y))
      of_value w ?_, h3]
    intro r w1
    beta_reduce
    rw [transform_of_present (of_value r) r g w1 rfl, observe_invoke_then, observe_invoke]

/-- C17 on the `optional<int>` holding 5 with `f(x) = x + 1` and `g(y) = y * 2`: both
sides give the optional holding 12. -/
theorem transform_comp_witness :
    observe ((transform (of_value (5 : Int))
        (fun x => (Callable.returning (x + 1) : Callable Unit Empty Int))
      >>= fun r => transform r
        (fun y => (Callable.returning (y * 2) : Callable Unit Empty Int))) ⟨(), 0⟩)
    = observe (transform (of_value (5 : Int))
        (fun x => (Callable.returning ((x + 1) * 2) : Callable Unit Empty Int)) ⟨(), 0⟩) ∧
    observe (transform (of_value (5 : Int))
        (fun x => (Callable.returning ((x + 1) * 2) : Callable Unit Empty Int)) ⟨(), 0⟩)
    = (Outcome.returned (of_value 12), ()) :=
  ⟨transform_comp (of_value (5 : Int)) _ _ _ ⟨(), 0⟩ (fun _ _ _ => rfl), rfl⟩

/-- C18: `transform` is `and_then` followed by wrapping.  For a callable `f` and a lambda
`h` whose body is `optional{ f(x) }`, `o.transform(f)` and `o.and_then(h)` give the same
result, state and invocation count.  The result of `transform`, when it returns, is
present exactly when the receiver is; and `transform` does not flatten: when `f` returns
an optional `r`, the result holds `r` as its value, and is present even if `r` is absent. -/
theorem transform_eq_and_then_wrap {V : Type} (o : optional T) (f : T → Callable σ E U)
    (h : T → Callable σ E (optional U)) (w : World σ)
    (hh : ∀ x, (h x).has_body (invoke (f x) >>= fun r => pure (of_value r))) :
    transform o f w = and_then o h w ∧
    (∀ (res : optional U) (w1 : World σ),
      transform o f w = (Outcome.returned res, w1) → res.has_value = o.has_value) ∧
    (∀ (f2 : T → Callable σ E (optional V)) (v : T) (r : optional V) (s : σ),
      o.base = some v → f2 v w.env = (Except.ok r, s) →
        transform o f2 w = (Outcome.returned (of_value r), ⟨s, w.invocations + 1⟩) ∧
        (of_value r).has_value = true) := by
  rcases present_cases o with ho | ⟨v, hb, ho⟩
  · refine ⟨?_, ?_, ?_⟩
    · simp only [transform, and_then, ho]
      rfl
    · intro res w1 h1
      have h2 : transform o f w = (Outcome.returned nullopt, w) := by
        simp only [transform, ho]
        rfl
      rw [h2] at h1
      have h3 : (nullopt : optional U) = res := by
        injection h1 with h4 h5
        injection h4
      rw [← h3, ho]
      rfl
    · intro f2 v r s hb
      have := has_value_of_base_eq o v hb
      simp [ho] at this
  · refine ⟨?_, ?_, ?_⟩
    · rw [transform_of_present o v f w hb, and_then_of_present o v h w hb]
      have h3 := observe_body (h v) _ (hh v) w
      rw [invoke_bind_pure, observe_invoke_then] at h3
      have h4 : and_then_invocable.construct = (of_self : optional U → optional U) := rfl
      rw [h4]
      have h5 := congrArg Prod.fst h3
      have h6 := congrArg Prod.snd h3
      simp only at h5 h6
      unfold invoke_then
      rw [h6]
      refine Prod.ext ?_ rfl
      show (match (f v w.env).1 with
        | Except.ok r => Outcome.returned (of_value r)
        | Except.error e => Outcome.raised e) = _
      have h7 : (match (f v w.env).1 with
        | Except.ok r => Outcome.returned (of_value r)
        | Except.error e => (Outcome.raised e : Outcome E (optional U)))
          = Outcome.map of_value (Outcome.of_except (f v w.env).1) := by
        cases (f v w.env).1 <;> rfl
      rw [h7, h5]
      cases (h v w.env).1 <;> rfl
    · intro res w1 h1
      rw [transform_of_present o v f w hb] at h1
      unfold invoke_then at h1
      rw [ho]
      cases hf : (f v w.env).1 with
      | ok r =>
        rw [hf] at h1
        have h2 : (Outcome.returned (of_value r) : Outcome E (optional U))
            = Outcome.returned res := congrArg Prod.fst h1
        have h3 : of_value r = res := by injection h2
        rw [← h3]
        rfl
      | error e =>
        rw [hf] at h1
        have h2 : (Outcome.raised e : Outcome E (optional U))
            = Outcome.returned res := congrArg Prod.fst h1
        cases h2
    · intro f2 v2 r s hb2 hf
      refine ⟨?_, rfl⟩
      rw [transform_of_present o v2 f2 w hb2]
      simp [invoke_then, hf]

/-- C18 on the `optional<int>` holding 5 with `f(x) = x * 2`: `transform` and `and_then`
with the wrapping lambda both give the optional holding 10 after one call. -/
theorem transform_eq_and_then_wrap_witness :
    transform (of_value (5 : Int)) (fun x => (Callable.returning (x * 2) : Callable Unit Empty Int))
      ⟨(), 0⟩
    = and_then (of_value (5 : Int))
        (fun x => (Callable.returning (of_value (x * 2)) : Callable Unit Empty (optional Int)))
        ⟨(), 0⟩ ∧
    and_then (of_value (5 : Int))
        (fun x => (Callable.returning (of_value (x * 2)) : Callable Unit Empty (optional Int)))
        ⟨(), 0⟩
    = (Outcome.returned (of_value 10), ⟨(), 1⟩) :=
  ⟨(transform_eq_and_then_wrap (V := Int) (of_value (5 : Int))
      (fun x => (Callable.returning (x * 2) : Callable Unit Empty Int))
      (fun x => (Callable.returning (of_value (x * 2)) : Callable Unit Empty (optional Int)))
      ⟨(), 0⟩ (fun _ _ _ => rfl)).1, rfl⟩

/-- C19: the identity laws.  `o.transform(x => x)` and `o.and_then(x => optional{x})` return
an optional equal to `o` and leave the caller's state as it was; the identity callable is
run once when `o` is present and not at all when it is absent. -/
theorem identity_laws (o : optional T) (w : World σ) :
    transform o (fun x => (Callable.returning x : Callable σ E T)) w
      = (Outcome.returned o, ⟨w.env, w.invocations + (if o.has_value then 1 else 0)⟩) ∧
    and_then o (fun x => (Callable.returning (of_value x) : Callable σ E (optional T))) w
      = (Outcome.returned o, ⟨w.env, w.invocations + (if o.has_value then 1 else 0)⟩) := by
  cases o with
  | mk b =>
    cases b with
    | none => exact ⟨rfl, rfl⟩
    | some v => exact ⟨rfl, rfl⟩

/-- C20: `or_else` with a fallback that returns a `T` recovers.  On a present receiver it
returns the receiver; on an absent receiver, when the fallback returns `r`, it returns
the optional holding `r`.  Whenever it returns, the result is present, and a second
`or_else` on the result with any fallback `g` returns the same result and leaves state
and invocation count as they were: `g` is not run. -/
theorem or_else_recovers (o : optional T) (f : Callable σ E T) (w : World σ) :
    (o.has_value = true → or_else o (Fallback.returns_value f) w = (Outcome.returned o, w)) ∧
    (o.has_value = false → ∀ (r : T) (s : σ), f w.env = (Except.ok r, s) →
      or_else o (Fallback.returns_value f) w
        = (Outcome.returned (of_value r), ⟨s, w.invocations + 1⟩)) ∧
    (∀ (res : optional T) (w1 : World σ),
      or_else o (Fallback.returns_value f) w = (Outcome.returned res, w1) →
        res.has_value = true ∧
        ∀ g : Fallback σ E T, or_else res g w1 = (Outcome.returned res, w1)) := by
  refine ⟨fun ho => or_else_of_present o _ w ho, fun ho r s hf => ?_, fun res w1 h1 => ?_⟩
  · rw [or_else_of_absent o _ w ho]
    simp [invoke_then, hf]
  · have hres : res.has_value = true := by
      rcases present_cases o with ho | ⟨v, hb, ho⟩
      · rw [or_else_of_absent o _ w ho] at h1
        simp only [invoke_then] at h1
        cases hf : (f w.env).1 with
        | ok r =>
          rw [hf] at h1
          have h2 : (Outcome.returned (of_value r) : Outcome E (optional T))
              = Outcome.returned res := congrArg Prod.fst h1
          have h3 : of_value r = res := by injection h2
          rw [← h3]
          rfl
        | error e =>
          rw [hf] at h1
          have h2 : (Outcome.raised e : Outcome E (optional T))
              = Outcome.returned res := congrArg Prod.fst h1
          cases h2
      · rw [or_else_of_present o _ w ho] at h1
        have h2 : Outcome.returned o = (Outcome.returned res : Outcome E (optional T)) :=
          congrArg Prod.fst h1
        have h3 : o = res := by injection h2
        rw [← h3]
        exact ho
    exact ⟨hres, fun g => or_else_of_present res g w1 hres⟩

/-- C20 on the empty `optional<int>` with the fallback `f() = 42` and a second fallback
that is a counting stub: the first `or_else` gives the optional holding 42, the second
returns it again and the counter of the stub stays at zero. -/
theorem or_else_recovers_witness :
    or_else (nullopt : optional Int)
      (Fallback.returns_value (Callable.returning 42) : Fallback Nat Empty Int) ⟨0, 0⟩
      = (Outcome.returned (of_value 42), ⟨0, 1⟩) ∧
    (of_value (42 : Int)).has_value = true ∧
    or_else (of_value (42 : Int))
      (Fallback.returns_value (fun n => (Except.ok 7, n + 1)) : Fallback Nat Empty Int) ⟨0, 1⟩
      = (Outcome.returned (of_value 42), ⟨0, 1⟩) :=
  have h := or_else_recovers (nullopt : optional Int)
    (Callable.returning 42 : Callable Nat Empty Int) ⟨0, 0⟩
  have h1 := h.2.1 rfl 42 0 rfl
  ⟨h1, (h.2.2 _ _ h1).1, (h.2.2 _ _ h1).2 _⟩

end nonstd.optional
